import Mathlib

/-!
Verification of the c4 compiler middle-end (vktec/c4) against its
natural-language specification.  The Go sources `compiler.go`,
`typecheck.go` and `main.go` are embedded shallowly below; the type
model (`types.go`) is not part of the published sources, so its
operations are modelled from the specification where a claim needs
them.  Go byte strings are modelled as `List Nat`, buffers as `String`,
maps as association lists, and panics as explicit error values.
-/

namespace C4

mutual
/-- Modelled from the spec: the concrete types of the c4 language
(spec section 3).  The Go file defining the `ConcreteType` interface is
not under src/.  Base numerics and `Bool`, pointer-to-T with the
generic pointer as `ptr none`, arrays, structs, unions (field types
only; compatibility and layout ignore field names), function types and
nominally-distinct named types identified by a slot index. -/
inductive CTy : Type where
  | i8 | i16 | i32 | i64
  | u8 | u16 | u32 | u64
  | f32 | f64
  | bool
  | ptr : CTyOpt → CTy
  | arr : CTy → Nat → CTy
  | strct : CTyList → CTy
  | uni : CTyList → CTy
  | func : CTyList → CTyOpt → CTy
  | named : Nat → CTy → CTy
inductive CTyOpt : Type where
  | none
  | some : CTy → CTyOpt
inductive CTyList : Type where
  | nil
  | cons : CTy → CTyList → CTyList
end

/-- Modelled from the spec: whether a type is a pointer, looking through
named wrappers (spec: a named pointer type is assignable to and from the
generic pointer). -/
def isPtr : CTy → Bool
  | .ptr _ => true
  | .named _ t => isPtr t
  | _ => false

/-- Modelled from the spec: the numeric types.  Spec section 3 lists the
base numeric types as I8..I64, U8..U64, F32, F64 and Bool; a named type
delegates to its underlying type (division on a named I32 compiles in
the reference tests). -/
def isNumeric : CTy → Bool
  | .i8 | .i16 | .i32 | .i64 => true
  | .u8 | .u16 | .u32 | .u64 => true
  | .f32 | .f64 => true
  | .bool => true
  | .named _ t => isNumeric t
  | _ => false

/-- Modelled from the spec: the floating-point types, through named
wrappers. -/
def isFloat : CTy → Bool
  | .f32 | .f64 => true
  | .named _ t => isFloat t
  | _ => false

mutual
/-- Modelled from the spec: compatibility of concrete types (spec
section 4.1): recursive structural comparison, named types compare by
slot identity, the generic pointer is compatible with any pointer,
arrays need equal length and compatible elements, structs and unions
need equal field counts, per-field compatibility and the same
discriminator kind. -/
def compatC : CTy → CTy → Bool
  | .ptr CTyOpt.none, b => isPtr b
  | a, .ptr CTyOpt.none => isPtr a
  | .ptr (CTyOpt.some t), .ptr (CTyOpt.some s) => compatC t s
  | .i8, .i8 => true
  | .i16, .i16 => true
  | .i32, .i32 => true
  | .i64, .i64 => true
  | .u8, .u8 => true
  | .u16, .u16 => true
  | .u32, .u32 => true
  | .u64, .u64 => true
  | .f32, .f32 => true
  | .f64, .f64 => true
  | .bool, .bool => true
  | .arr t n, .arr s m => (n == m) && compatC t s
  | .strct fs, .strct gs => compatL fs gs
  | .uni fs, .uni gs => compatL fs gs
  | .func ps r, .func qs u => compatL ps qs && compatO r u
  | .named i _, .named j _ => i == j
  | _, _ => false
def compatL : CTyList → CTyList → Bool
  | CTyList.nil, CTyList.nil => true
  | CTyList.cons t ts, CTyList.cons s ss => compatC t s && compatL ts ss
  | _, _ => false
def compatO : CTyOpt → CTyOpt → Bool
  | CTyOpt.none, CTyOpt.none => true
  | CTyOpt.some t, CTyOpt.some s => compatC t s
  | _, _ => false
end

/-- Size and alignment of a concrete type. -/
structure Metrics where
  size : Nat
  align : Nat
deriving DecidableEq, Repr

/-- Round `x` up to a multiple of `a`. -/
def roundUp (x a : Nat) : Nat := ((x + a - 1) / a) * a

mutual
/-- Modelled from the spec: size and alignment (spec section 3,
Aggregate layout).  Structs pack fields at the smallest aligned offset
past the cursor and round the total up to the struct alignment; unions
take the maximum field size and alignment; arrays scale the element
size; pointers and function values are 8-byte words. -/
def CTy.metrics : CTy → Metrics
  | .i8 => ⟨1, 1⟩
  | .u8 => ⟨1, 1⟩
  | .bool => ⟨1, 1⟩
  | .i16 => ⟨2, 2⟩
  | .u16 => ⟨2, 2⟩
  | .i32 => ⟨4, 4⟩
  | .u32 => ⟨4, 4⟩
  | .f32 => ⟨4, 4⟩
  | .i64 => ⟨8, 8⟩
  | .u64 => ⟨8, 8⟩
  | .f64 => ⟨8, 8⟩
  | .ptr _ => ⟨8, 8⟩
  | .func _ _ => ⟨8, 8⟩
  | .arr t n => ⟨n * (CTy.metrics t).size, (CTy.metrics t).align⟩
  | .strct fs =>
      let p := structFold fs 0 1
      ⟨roundUp p.1 p.2, p.2⟩
  | .uni fs =>
      let p := unionFold fs 0 1
      ⟨p.1, p.2⟩
  | .named _ t => CTy.metrics t
def structFold : CTyList → Nat → Nat → Nat × Nat
  | CTyList.nil, cur, al => (cur, al)
  | CTyList.cons t rest, cur, al =>
      let m := CTy.metrics t
      structFold rest (roundUp cur m.align + m.size) (max al m.align)
def unionFold : CTyList → Nat → Nat → Nat × Nat
  | CTyList.nil, sz, al => (sz, al)
  | CTyList.cons t rest, sz, al =>
      let m := CTy.metrics t
      unionFold rest (max sz m.size) (max al m.align)
end

/-- Modelled from the spec: the `Type` interface of the Go code: a
concrete type, or one of the two literal-polymorphic types produced
only by literal expressions. -/
inductive Ty : Type where
  | c : CTy → Ty
  | intLit : Ty
  | floatLit : Ty

/-- Go `Type.IsConcrete`: literal types are the only non-concrete
types. -/
def Ty.IsConcrete : Ty → Bool
  | .c _ => true
  | _ => false

/-- Modelled from the spec: `Type.Concrete`.  A concrete type is its
own concrete form; an integer literal defaults to I64 and a float
literal to F64 (variadic literal arguments are passed as `l` in the
reference tests). -/
def Ty.Concrete : Ty → CTy
  | .c t => t
  | .intLit => .i64
  | .floatLit => .f64

/-- Modelled from the spec: `Compatible` on the full type universe: an
integer literal is compatible with any numeric type, a float literal
with any float type, and concrete types recursively (spec sections 3
and 4.1). -/
def TyCompatible : Ty → Ty → Bool
  | .c a, .c b => compatC a b
  | .intLit, .intLit => true
  | .floatLit, .floatLit => true
  | .intLit, .c t => isNumeric t
  | .c t, .intLit => isNumeric t
  | .floatLit, .c t => isFloat t
  | .c t, .floatLit => isFloat t
  | _, _ => false

/-- Go `BinaryExpr.TypeOf` (typecheck.go lines 47-62): reject
incompatible operands, pick the concrete operand's concrete type
(defaulting to the left side), then require it to be numeric. -/
def BinaryExprTypeOf (ltyp rtyp : Ty) : Except String Ty :=
  if !TyCompatible ltyp rtyp then
    .error ("Operands of binary expression are incompatible")
  else
    let ctyp := if !ltyp.IsConcrete && rtyp.IsConcrete then rtyp.Concrete else ltyp.Concrete
    if isNumeric ctyp then .ok (Ty.c ctyp)
    else .error ("Operand of binary expression is of non-numeric type")

/-- The concrete side of a binary expression, as the spec words it: the
side that is not a literal type (the left side when both are concrete,
the literal default when both are literals). -/
def concreteSide : Ty → Ty → CTy
  | .c a, _ => a
  | _, .c b => b
  | l, _ => l.Concrete

/-- Go `FuncType` payload: parameter list and optional return type. -/
abbrev FuncSig := CTyList × CTyOpt

/-- A Go panic value: either a string (the compiler's own errors) or a
runtime error object such as the one raised by a failed interface type
assertion, which is not a string. -/
inductive PanicVal : Type where
  | str : String → PanicVal
  | assertionError : PanicVal
deriving DecidableEq

/-- Result of running a Go computation that may panic. -/
inductive GoVal (α : Type) : Type where
  | ok : α → GoVal α
  | panics : PanicVal → GoVal α

/-- Go `CallExpr.typeOf` (typecheck.go lines 15-23): switch on the
dynamic type of the callee's type.  A function type is returned
directly; a pointer type asserts its pointee to `FuncType`, and when
the pointee is not a function type (or is absent, for the generic
pointer) the assertion panics with a runtime error object, not a
string; every other type panics with the string message. -/
def CallExprTypeOf : Ty → GoVal (FuncSig × Bool)
  | .c (.func ps r) => .ok ((ps, r), false)
  | .c (.ptr (CTyOpt.some (.func ps r))) => .ok ((ps, r), true)
  | .c (.ptr _) => .panics .assertionError
  | _ => .panics (.str ("Invalid function type"))

/-- Go byte strings (`string` in Go is a byte sequence). -/
abbrev GoStr := List Nat

/-- Association-list lookup, modelling a Go map read. -/
def lookupA {α β : Type} [DecidableEq α] : List (α × β) → α → Option β
  | [], _ => Option.none
  | (k, v) :: rest, n => if k = n then Option.some v else lookupA rest n

/-- A binding stored in a namespace's `Vars` map.  In Go the map holds
values of the `Type` interface, which both concrete types (globals) and
`Namespace` values implement; a nested namespace is represented here by
its dotted prefix only, since no variable lookup inspects it. -/
inductive VarBind : Type where
  | t : Ty → VarBind
  | nsb : String → VarBind

/-- Go `Namespace` (compiler.go usage): dotted name prefix, variable
bindings and type slots. -/
structure Namespace where
  Name : String
  Vars : List (String × VarBind)
  Typs : List (String × CTy)

mutual
/-- Go operands (compiler.go: `Block`, `Temporary`, `Global`,
`IRInteger`, `CallOperand`).  A call operand carries the variadic flag,
the callee operand and the typed argument list. -/
inductive Op : Type where
  | temp : Nat → Op
  | glob : String → Op
  | blockRef : Nat → Op
  | irInt : Int → Op
  | callOp : Bool → Op → TOps → Op
inductive TOps : Type where
  | nil : TOps
  | cons : String → Op → TOps → TOps
end

mutual
/-- Go `Operand()` rendering: temporaries as `%tN`, globals as `$name`,
blocks as `@bN`, integers in decimal, and `CallOperand.Operand`
(compiler.go lines 502-523) with its inline rewrite of argument type
letters `h` and `b` to `w`. -/
def Op.render : Op → String
  | .temp n => "%t" ++ Nat.repr n
  | .glob s => "$" ++ s
  | .blockRef n => "@b" ++ Nat.repr n
  | .irInt i => Int.repr i
  | .callOp var f args =>
      f.render ++ "(" ++ TOps.render true args ++ (if var then ", ..." else "") ++ ")"
/-- The argument list of `CallOperand.Operand`: a comma-separated list
of promoted type letter and operand, mirroring the Go loop. -/
def TOps.render : Bool → TOps → String
  | _, .nil => ""
  | first, .cons ty op rest =>
      (if first then "" else ", ") ++ (if ty = "h" || ty = "b" then "w" else ty)
        ++ " " ++ op.render ++ TOps.render false rest
end

/-- Rendering of a call operand argument list with the type letters
taken verbatim, used to state what the promotion rewrite does. -/
def TOps.renderPlain : Bool → TOps → String
  | _, .nil => ""
  | first, .cons ty op rest =>
      (if first then "" else ", ") ++ ty ++ " " ++ op.render ++ TOps.renderPlain false rest

/-- The promotion the spec describes: an IR type letter `b` or `h` is
rewritten to `w`; every other type letter is unchanged. -/
def promoteIR (t : String) : String := if t = "b" ∨ t = "h" then "w" else t

/-- Promote every argument type letter of a typed-operand list. -/
def TOps.promote : TOps → TOps
  | .nil => .nil
  | .cons ty op rest => .cons (promoteIR ty) op (TOps.promote rest)

/-- A local variable or namespace lookup result, Go `Variable`:
an operand for its storage and its type binding. -/
structure GoVar where
  Loc : Op
  Ty : VarBind

/-- The Go `Compiler` struct (compiler.go lines 12-26), with the two
buffers of its `CompileResult` inlined as `typeW` and `codeW`. -/
structure Compiler where
  typeW : String
  codeW : String
  blk : Nat
  temp : Nat
  ret : Bool
  loop : List (Nat × Nat)
  ns : List Namespace
  comp : List (List (String × Nat))
  vars : List (String × GoVar)
  strs : List GoStr
  strM : List (GoStr × Nat)
  data : List (String × CTy)

/-- Go `NewCompiler` (compiler.go lines 51-83): one root namespace
pre-populated with the base types, everything else empty. -/
def NewCompiler : Compiler where
  typeW := ""
  codeW := ""
  blk := 0
  temp := 0
  ret := false
  loop := []
  ns := [⟨"", [], [("I64", .i64), ("I32", .i32), ("I16", .i16), ("I8", .i8),
                   ("U64", .u64), ("U32", .u32), ("U16", .u16), ("U8", .u8),
                   ("F64", .f64), ("F32", .f32), ("Bool", .bool)]⟩]
  comp := []
  vars := []
  strs := []
  strM := []
  data := []

/-- The current (innermost) namespace, Go `c.NS()`; the namespace stack
is never empty in a well-formed compiler. -/
def Compiler.NS (c : Compiler) : Namespace := c.ns.getLastD ⟨"", [], []⟩

/-- The root namespace `c.ns[0]`. -/
def Compiler.nsRoot (c : Compiler) : Namespace := c.ns.headD ⟨"", [], []⟩

/-- The operand list of an instruction as Go `Insn` renders it: every
operand is preceded by a space, and operands after the first also by a
comma. -/
def insnOperands : Bool → List Op → String
  | _, [] => ""
  | first, o :: rest => (if first then "" else ",") ++ " " ++ o.render ++ insnOperands false rest

/-- Go `Insn` (compiler.go lines 110-133): drop the instruction
entirely while the `ret` flag is set; otherwise append one formatted
line to the code buffer, with a result binding unless the result
temporary is zero, and set the flag exactly when the opcode is
`ret`. -/
def Insn (c : Compiler) (retVar : Nat) (retType : Char) (opcode : String) (operands : List Op) :
    Compiler :=
  if c.ret then c
  else
    let b := opcode ++ insnOperands true operands
    let line :=
      if retVar = 0 then "\t" ++ b ++ "\n"
      else "\t%t" ++ Nat.repr retVar ++ " =" ++ String.singleton retType ++ " " ++ b ++ "\n"
    { c with codeW := c.codeW ++ line, ret := opcode == "ret" }

/-- Go `StartBlock` (compiler.go lines 215-218): write the block label
and clear the dead-code suppression flag. -/
def StartBlock (c : Compiler) (b : Nat) : Compiler :=
  { c with codeW := c.codeW ++ "@b" ++ Nat.repr b ++ "\n", ret := false }

/-- One emission-sequence event: an `Insn` call or a `StartBlock`
call. -/
inductive EmitEvent : Type where
  | insn : Nat → Char → String → List Op → EmitEvent
  | startBlock : Nat → EmitEvent

/-- Whether an event is an `Insn` call. -/
def EmitEvent.isInsn : EmitEvent → Bool
  | .insn _ _ _ _ => true
  | .startBlock _ => false

/-- Run one emission event against the compiler. -/
def stepEmit (c : Compiler) : EmitEvent → Compiler
  | .insn rv rt opc ops => Insn c rv rt opc ops
  | .startBlock b => StartBlock c b

/-- Run an emission sequence left to right. -/
def runEmit : Compiler → List EmitEvent → Compiler :=
  List.foldl stepEmit

/-- A function parameter as `StartFunction` consumes it.  `IrTy` is the
result of `Ty.IRTypeName`, whose definition (types.go) is not under
src/: the storage letter `b`, `h`, `w` or `l` for primitives, or the
`:`-prefixed identifier of an aggregate layout. -/
structure IRParamM where
  Name : String
  IrTy : String

/-- The parameter-list builder loop of `StartFunction` (compiler.go
lines 157-173): comma separation, the inline rewrite of `b` and `h` to
`w`, and one fresh temporary per parameter. -/
def paramsBuild : Bool → Nat → List IRParamM → String
  | _, _, [] => ""
  | first, temp, p :: rest =>
      let ptype := if p.IrTy = "b" || p.IrTy = "h" then "w" else p.IrTy
      (if first then "" else ", ") ++ ptype ++ " " ++ "%t" ++ Nat.repr (temp + 1)
        ++ paramsBuild false (temp + 1) rest

/-- The same parameter-list builder with the type letters taken
verbatim, used to state what the promotion rewrite does. -/
def paramsBuildPlain : Bool → Nat → List IRParamM → String
  | _, _, [] => ""
  | first, temp, p :: rest =>
      (if first then "" else ", ") ++ p.IrTy ++ " " ++ "%t" ++ Nat.repr (temp + 1)
        ++ paramsBuildPlain false (temp + 1) rest

/-- Promote the IR type letter of every parameter. -/
def promoteParams (ps : List IRParamM) : List IRParamM :=
  ps.map fun p => ⟨p.Name, promoteIR p.IrTy⟩

/-- The header-writing part of Go `StartFunction` (compiler.go lines
151-182): optional `export ` prefix, promoted return type with a
trailing space when non-empty, the namespace-prefixed name, the built
parameter list, and `@start`; the temporary counter advances by one per
parameter. -/
def startFunctionHeader (c : Compiler) (exported : Bool) (name : String)
    (params : List IRParamM) (retType : String) : Compiler :=
  let prefx := if exported then "export " else ""
  let pb := paramsBuild true c.temp params
  let rt0 := if retType = "b" || retType = "h" then "w" else retType
  let rt := if rt0 = "" then rt0 else rt0 ++ " "
  { c with
      codeW := c.codeW ++ prefx ++ "function " ++ rt ++ "$" ++ (c.NS.Name ++ name)
        ++ "(" ++ pb ++ ") \x7b\n@start\n"
      temp := c.temp + params.length }

/-- The same header writer with the type letters taken verbatim. -/
def startFunctionHeaderPlain (c : Compiler) (exported : Bool) (name : String)
    (params : List IRParamM) (retType : String) : Compiler :=
  let prefx := if exported then "export " else ""
  let pb := paramsBuildPlain true c.temp params
  let rt := if retType = "" then retType else retType ++ " "
  { c with
      codeW := c.codeW ++ prefx ++ "function " ++ rt ++ "$" ++ (c.NS.Name ++ name)
        ++ "(" ++ pb ++ ") \x7b\n@start\n"
      temp := c.temp + params.length }

/-- Go `String` (compiler.go lines 345-353): look the byte string up in
the intern map; if absent, record it at the next free index of the pool
and in the map.  Returns a global named `strI`. -/
def StringM (c : Compiler) (s : GoStr) : Compiler × String :=
  match lookupA c.strM s with
  | Option.some i => (c, "str" ++ Nat.repr i)
  | Option.none =>
      let i := c.strs.length
      ({ c with strM := (s, i) :: c.strM, strs := c.strs ++ [s] }, "str" ++ Nat.repr i)

/-- The string-pool invariant maintained by `StringM`: the intern map
sends a byte string to exactly the indices at which it sits in the
pool. -/
def StrPoolWF (c : Compiler) : Prop :=
  ∀ s i, lookupA c.strM s = Option.some i ↔ c.strs.get? i = Option.some s

/-- The body of Go `IRString.String` (compiler.go lines 463-490): runs
of printable ASCII are emitted inside one `b "…"` chunk, every other
byte as a decimal `b N` entry; `first` is true only at index 0, `inStr`
while a quoted run is open. -/
def irsChunks : Bool → Bool → List Nat → String
  | _, inStr, [] => if inStr then "\"" else ""
  | first, inStr, ch :: rest =>
      if 32 ≤ ch ∧ ch ≤ 126 then
        (if inStr then "" else (if first then "" else ",") ++ " b \"")
          ++ String.singleton (Char.ofNat ch) ++ irsChunks false true rest
      else
        (if inStr then "\"" else "") ++ (if first then "" else ",") ++ " b "
          ++ Nat.repr ch ++ irsChunks false false rest

/-- Go `IRString.String`: the data payload of a pooled string, with a
NUL byte appended. -/
def irStringRender (s : GoStr) : String :=
  "\x7b" ++ irsChunks true false (s ++ [0]) ++ " \x7d"

/-- One `data $strI = …` line as Go `Finish` writes it. -/
def strDataLine (i : Nat) (s : GoStr) : String :=
  "data $str" ++ Nat.repr i ++ " = " ++ irStringRender s ++ "\n"

/-- One `data $name = align A \x7b z S \x7d` line as Go `Finish` writes
it for a zero-initialized global. -/
def dataLine (d : String × CTy) : String :=
  "data $" ++ d.1 ++ " = align " ++ Nat.repr (CTy.metrics d.2).align
    ++ " \x7b z " ++ Nat.repr (CTy.metrics d.2).size ++ " \x7d\n"

/-- A composite layout entry, Go `CompositeEntry`: an IR type string
and a repetition count. -/
abbrev CompositeEntry := String × Nat

/-- The entry spine of Go `CompositeLayout.Ident` (compiler.go lines
379-396): multi-letter types are wrapped in `X`/`Y`, counts greater
than one are appended in decimal. -/
def identEntries : List CompositeEntry → String
  | [] => ""
  | e :: rest =>
      (if e.1.length > 1 then "X" ++ e.1 ++ "Y" else e.1)
        ++ (if e.2 > 1 then Nat.repr e.2 else "") ++ identEntries rest

/-- Go `CompositeLayout.Ident`: the canonical `:`-prefixed layout
identifier. -/
def layoutIdent (l : List CompositeEntry) : String := ":" ++ identEntries l

/-- Go `strings.Compare`, expressed through the linear order on
strings (byte-lexicographic in Go, character-lexicographic here; the
two agree on layout identifiers). -/
def goCompare (a b : String) : Ordering :=
  if a = b then .eq else if a < b then .lt else .gt

/-- The scan-and-insert loop of Go `CompositeType` (compiler.go lines
271-289): walk the pool until an entry with an identifier not below
`ident` is found; on equality keep the pool, on a greater identifier
insert before it, otherwise append at the end. -/
def insertLayout (ident : String) (layout : List CompositeEntry) :
    List (List CompositeEntry) → List (List CompositeEntry)
  | [] => [layout]
  | l :: rest =>
      match goCompare (layoutIdent l) ident with
      | .eq => l :: rest
      | .gt => layout :: l :: rest
      | .lt => l :: insertLayout ident layout rest

/-- Go `CompositeType`: pool the layout and return its identifier. -/
def CompositeTypeM (c : Compiler) (layout : List CompositeEntry) : Compiler × String :=
  ({ c with comp := insertLayout (layoutIdent layout) layout c.comp }, layoutIdent layout)

/-- The field spine of Go `CompositeLayout.GenType` (compiler.go lines
398-412). -/
def genTypeEntries : Bool → List CompositeEntry → String
  | _, [] => ""
  | first, e :: rest =>
      (if first then "" else ", ") ++ e.1 ++ (if e.2 > 1 then " " ++ Nat.repr e.2 else "")
        ++ genTypeEntries false rest

/-- Go `CompositeLayout.GenType`: one aggregate type declaration, as
written into the types buffer. -/
def GenTypeLine (l : List CompositeEntry) : String :=
  "type " ++ layoutIdent l ++ " = \x7b " ++ genTypeEntries true l ++ " \x7d\n"

/-- Go `Finish` (compiler.go lines 355-371), as three sequential buffer
writes: pooled aggregate declarations into the types buffer, then the
pooled string data entries and the zero-initialized globals into the
code buffer. -/
def Finish (c : Compiler) : Compiler :=
  let c1 := { c with typeW := c.typeW ++ String.join (c.comp.map GenTypeLine) }
  let c2 := { c1 with
    codeW := c1.codeW ++ String.join (c1.strs.enum.map fun (p : Nat × GoStr) => strDataLine p.1 p.2) }
  { c2 with codeW := c2.codeW ++ String.join (c2.data.map dataLine) }

/-- Go `CompileResult.String` (compiler.go lines 32-34): the types
buffer followed by the code buffer. -/
def resultString (c : Compiler) : String := c.typeW ++ c.codeW

/-- Go `DeclareGlobal` (compiler.go lines 291-300): fail on a duplicate
name in the current namespace; otherwise record the binding there and,
only for a non-extern global, queue a pending data entry under the
namespace-prefixed name. -/
def DeclareGlobal (c : Compiler) (externFlag : Bool) (name : String) (ty : CTy) :
    Except String Compiler :=
  let cur := c.NS
  if (lookupA cur.Vars name).isSome then .error ("Variable already exists")
  else
    let cur' : Namespace := ⟨cur.Name, (name, VarBind.t (Ty.c ty)) :: cur.Vars, cur.Typs⟩
    let c' := { c with ns := c.ns.dropLast ++ [cur'] }
    if externFlag then .ok c'
    else .ok { c' with data := c'.data ++ [(cur.Name ++ name, ty)] }

/-- Go `nsVar` (compiler.go lines 326-331): a hit in namespace `n`
yields the global operand built from the namespace prefix and the
name. -/
def nsVarM (n : Namespace) (name : String) : Option GoVar :=
  (lookupA n.Vars name).map fun b => ⟨Op.glob (n.Name ++ name), b⟩

/-- Go `Variable` (compiler.go lines 332-343): the local table first,
then the innermost namespace, then the root namespace; an undefined
name panics with the `Undefined variable` message. -/
def VariableM (c : Compiler) (name : String) : Except String GoVar :=
  match lookupA c.vars name with
  | Option.some v => .ok v
  | Option.none =>
    match nsVarM c.NS name with
    | Option.some v => .ok v
    | Option.none =>
      match nsVarM c.nsRoot name with
      | Option.some v => .ok v
      | Option.none => .error ("Undefined variable: " ++ name)

/-- The outcome of running one translation body (`c.compile(prog)`):
either the mutated compiler, or the compiler as mutated up to the point
where a panic was raised, together with the panic value. -/
inductive StepResult : Type where
  | ok : Compiler → StepResult
  | panicked : Compiler → PanicVal → StepResult

/-- Go `Compile` (compiler.go lines 85-99).  On success the result
buffers are handed out and replaced by fresh empty ones; a string panic
is converted by the deferred `recover` into the returned error, leaving
the compiler exactly as the failed translation left it; any other panic
value is re-raised.  The second component is the returned pair: a
result (type and code buffer) on success, an error message on a string
panic. -/
def Compile (c : Compiler) (body : Compiler → StepResult) :
    Compiler × Except PanicVal ((String × String) ⊕ String) :=
  match body c with
  | .ok c' => ({ c' with typeW := "", codeW := "" }, .ok (Sum.inl (c'.typeW, c'.codeW)))
  | .panicked c' (.str e) => (c', .ok (Sum.inr e))
  | .panicked c' .assertionError => (c', .error .assertionError)

/-- Whether a concrete type is a function type (exactly, without
peeling named wrappers), as the Go type switch sees it. -/
def isFunc : CTy → Bool
  | .func _ _ => true
  | _ => false

/-- A translation body used to exercise `Compile` on a lowering
failure: it writes a function header (advancing the temporary counter)
and then fails resolving an undefined variable, panicking with the
string error exactly as `Variable` does. -/
def failingBody (c : Compiler) : StepResult :=
  let c1 := startFunctionHeader c false ("f") [⟨"x", "w"⟩] ""
  match VariableM c1 ("y") with
  | .ok _ => .ok c1
  | .error e => .panicked c1 (.str e)

/-- C2: after a `ret` the suppression flag is set; while it is set, any
sequence of `Insn` calls leaves the compiler (in particular its code
buffer) unchanged; `StartBlock` writes the label and clears the
flag. -/
theorem insnRetSuppression :
    (∀ (c : Compiler) (rv : Nat) (rt : Char) (ops : List Op),
        (Insn c rv rt ("ret") ops).ret = true) ∧
    (∀ (c : Compiler) (evs : List EmitEvent), c.ret = true →
        (∀ e ∈ evs, e.isInsn = true) → runEmit c evs = c) ∧
    (∀ (c : Compiler) (b : Nat),
        (StartBlock c b).ret = false ∧
        (StartBlock c b).codeW = c.codeW ++ "@b" ++ Nat.repr b ++ "\n") := by
  refine ⟨?_, ?_, ?_⟩
  · intro c rv rt ops
    by_cases h : c.ret = true
    · simp [Insn, h]
    · simp at h
      simp [Insn, h]
  · intro c evs hret hall
    induction evs generalizing c with
    | nil => rfl
    | cons e rest ih =>
        cases e with
        | insn rv rt opc ops =>
            have hstep : stepEmit c (EmitEvent.insn rv rt opc ops) = c := by
              simp [stepEmit, Insn, hret]
            have : runEmit c (EmitEvent.insn rv rt opc ops :: rest) = runEmit c rest := by
              simp [runEmit, List.foldl, hstep]
            rw [this]
            exact ih c hret fun e he => hall e (List.mem_cons_of_mem _ he)
        | startBlock b =>
            have := hall (EmitEvent.startBlock b) (List.mem_cons_self _ _)
            simp [EmitEvent.isInsn] at this
  · intro c b
    exact ⟨rfl, by simp [StartBlock, String.append_assoc]⟩

/-- Witness for C2 at a concrete suppressed state and event list. -/
theorem insnRetSuppressionWitness :
    runEmit { NewCompiler with ret := true }
        [EmitEvent.insn 0 'w' ("add") [], EmitEvent.insn 2 'l' ("ret") []] =
      { NewCompiler with ret := true } :=
  insnRetSuppression.2.1 { NewCompiler with ret := true } _ rfl (by decide)

/-- The inline promotion in the Go sources agrees with `promoteIR` in
either test order. -/
theorem promote_bh (t : String) :
    ((if t = "b" || t = "h" then "w" else t) = promoteIR t) ∧
    ((if t = "h" || t = "b" then "w" else t) = promoteIR t) := by
  by_cases h1 : t = "b" <;> by_cases h2 : t = "h" <;> simp [promoteIR, h1, h2]

/-- The parameter-list builder prints exactly the promoted type
letters. -/
theorem paramsBuild_promote (ps : List IRParamM) :
    ∀ (first : Bool) (temp : Nat),
      paramsBuild first temp ps = paramsBuildPlain first temp (promoteParams ps) := by
  induction ps with
  | nil => intro first temp; rfl
  | cons p rest ih =>
      intro first temp
      simp only [paramsBuild, paramsBuildPlain, promoteParams, List.map_cons]
      rw [(promote_bh p.IrTy).1]
      have := ih false (temp + 1)
      simp only [promoteParams] at this
      rw [this]

/-- The call-operand argument list prints exactly the promoted type
letters. -/
theorem topsRender_promote :
    ∀ (first : Bool) (args : TOps),
      TOps.render first args = TOps.renderPlain first (TOps.promote args)
  | _, .nil => rfl
  | first, .cons ty op rest => by
      simp only [TOps.render, TOps.renderPlain, TOps.promote]
      rw [(promote_bh ty).2, topsRender_promote false rest]

/-- C3: every function header written by `StartFunction` and every call
operand rendered by `CallOperand.Operand` prints a parameter type whose
IR letter is `b` or `h` as `w` and every other type letter unchanged:
the writers agree with their promotion-free counterparts applied to the
promoted types. -/
theorem headerAndCallPromotion :
    (∀ (c : Compiler) (exported : Bool) (name : String) (params : List IRParamM)
        (retType : String),
        startFunctionHeader c exported name params retType =
          startFunctionHeaderPlain c exported name (promoteParams params) (promoteIR retType)) ∧
    (∀ (var : Bool) (f : Op) (args : TOps),
        Op.render (.callOp var f args) =
          f.render ++ "(" ++ TOps.renderPlain true (TOps.promote args)
            ++ (if var then ", ..." else "") ++ ")") := by
  constructor
  · intro c exported name params retType
    simp only [startFunctionHeader, startFunctionHeaderPlain]
    rw [paramsBuild_promote, (promote_bh retType).1]
    simp [promoteParams]
  · intro var f args
    simp only [Op.render]
    rw [topsRender_promote]

/-- C6: `Finish` appends all pooled aggregate declarations to the types
buffer and then the pooled string entries followed by the
zero-initialized global entries to the code buffer, and the finished
result is the types buffer followed by the code buffer. -/
theorem finishLayout (c : Compiler) :
    (Finish c).typeW = c.typeW ++ String.join (c.comp.map GenTypeLine) ∧
    (Finish c).codeW = c.codeW
      ++ String.join (c.strs.enum.map fun (p : Nat × GoStr) => strDataLine p.1 p.2)
      ++ String.join (c.data.map dataLine) ∧
    resultString (Finish c) = (Finish c).typeW ++ (Finish c).codeW := by
  refine ⟨rfl, ?_, rfl⟩
  simp [Finish, String.append_assoc]

/-- Under the pool invariant, a missing intern-map entry is exactly
absence from the pool. -/
theorem wf_lookup_none {c : Compiler} (h : StrPoolWF c) (s : GoStr) :
    lookupA c.strM s = Option.none ↔ s ∉ c.strs := by
  constructor
  · intro hn hmem
    obtain ⟨i, hi⟩ := List.mem_iff_get?.mp hmem
    have := (h s i).mpr hi
    rw [hn] at this
    exact Option.noConfusion this
  · intro hmem
    cases hl : lookupA c.strM s with
    | none => rfl
    | some i => exact absurd (List.get?_mem ((h s i).mp hl)) hmem

/-- A list whose members sit at unique positions has no duplicates. -/
theorem nodup_of_get?_inj {l : List GoStr}
    (h : ∀ i j a, l.get? i = some a → l.get? j = some a → i = j) : l.Nodup := by
  induction l with
  | nil => exact List.nodup_nil
  | cons a t ih =>
      rw [List.nodup_cons]
      constructor
      · intro hmem
        obtain ⟨k, hk⟩ := List.mem_iff_get?.mp hmem
        have h0 : (a :: t).get? 0 = some a := rfl
        have hk1 : (a :: t).get? (k + 1) = some a := by simpa using hk
        have := h 0 (k + 1) a h0 hk1
        omega
      · refine ih fun i j b hi hj => ?_
        have hi1 : (a :: t).get? (i + 1) = some b := by simpa using hi
        have hj1 : (a :: t).get? (j + 1) = some b := by simpa using hj
        have := h (i + 1) (j + 1) b hi1 hj1
        omega

/-- The pool invariant forces the pool to be duplicate-free. -/
theorem wf_nodup {c : Compiler} (h : StrPoolWF c) : c.strs.Nodup :=
  nodup_of_get?_inj fun i j a hi hj => by
    have h1 := (h a i).mpr hi
    have h2 := (h a j).mpr hj
    rw [h1] at h2
    exact Option.some.inj h2

/-- A duplicate-free list containing `s` keeps exactly one copy of
`s`. -/
theorem filter_eq_length_one {s : GoStr} :
    ∀ {l : List GoStr}, l.Nodup → s ∈ l → (l.filter (fun t => t = s)).length = 1 := by
  intro l
  induction l with
  | nil => intro _ hm; cases hm
  | cons a t ih =>
      intro hnd hm
      rw [List.nodup_cons] at hnd
      rcases List.mem_cons.mp hm with rfl | hmt
      · have hnil : t.filter (fun t' => t' = s) = [] :=
          List.filter_eq_nil.mpr fun b hb => by
            simp only [decide_eq_true_eq]
            intro hbs
            exact hnd.1 (hbs ▸ hb)
        simp [List.filter_cons, hnil]
      · have hne : ¬(a = s) := fun hh => hnd.1 (hh ▸ hmt)
        have := ih hnd.2 hmt
        simpa [List.filter_cons, hne] using this

/-- `StringM` preserves the string-pool invariant. -/
theorem wf_stringM {c : Compiler} (h : StrPoolWF c) (s : GoStr) :
    StrPoolWF (StringM c s).1 := by
  cases hl : lookupA c.strM s with
  | some i => simpa [StringM, hl] using h
  | none =>
      have hnm : s ∉ c.strs := (wf_lookup_none h s).mp hl
      intro t i
      simp only [StringM, hl]
      by_cases ht : s = t
      · subst ht
        simp only [lookupA, if_pos rfl]
        constructor
        · rintro ⟨rfl⟩
          exact List.get?_concat_length c.strs s
        · intro hg
          rcases lt_trichotomy i c.strs.length with hlt | heq | hgt
          · rw [List.get?_append hlt] at hg
            exact absurd (List.get?_mem hg) hnm
          · simp [heq]
          · rw [List.get?_eq_none.mpr (by simp; omega)] at hg
            exact Option.noConfusion hg
      · rw [lookupA, if_neg ht]
        rw [h t i]
        rcases lt_trichotomy i c.strs.length with hlt | heq | hgt
        · rw [List.get?_append hlt]
        · subst heq
          rw [List.get?_concat_length, List.get?_eq_none.mpr le_rfl]
          simp [fun hh => ht hh]
        · rw [List.get?_eq_none.mpr (by omega),
            List.get?_eq_none.mpr (by simp; omega)]

/-- C4: interning a fresh string returns `strI` for `I` the current
pool size and appends it; interning again finds the same entry, returns
the same global and leaves the pool untouched; the invariant is kept
and the interned string sits in the pool exactly once, so `Finish`
writes exactly one `data $strI` definition for it. -/
theorem stringInterning (c : Compiler) (s : GoStr) (h : StrPoolWF c) :
    (s ∉ c.strs →
      (StringM c s).2 = "str" ++ Nat.repr c.strs.length ∧
      (StringM c s).1.strs = c.strs ++ [s]) ∧
    (∀ i, lookupA c.strM s = Option.some i →
      StringM c s = (c, "str" ++ Nat.repr i)) ∧
    StrPoolWF (StringM c s).1 ∧
    StringM (StringM c s).1 s = ((StringM c s).1, (StringM c s).2) ∧
    ((StringM c s).1.strs.filter (fun t => t = s)).length = 1 := by
  refine ⟨?_, ?_, wf_stringM h s, ?_, ?_⟩
  · intro hnm
    have hl : lookupA c.strM s = Option.none := (wf_lookup_none h s).mpr hnm
    simp [StringM, hl]
  · intro i hl
    simp [StringM, hl]
  · cases hl : lookupA c.strM s with
    | some i => simp [StringM, hl]
    | none => simp [StringM, hl, lookupA]
  · cases hl : lookupA c.strM s with
    | some i =>
        have hg := (h s i).mp hl
        simp only [StringM, hl]
        exact filter_eq_length_one (wf_nodup h) (List.get?_mem hg)
    | none =>
        have hnm : s ∉ c.strs := (wf_lookup_none h s).mp hl
        have hwf := wf_stringM h s
        simp only [StringM, hl] at hwf ⊢
        exact filter_eq_length_one (wf_nodup hwf) (by simp)

/-- Witness for C4: interning `"hi"` twice on a fresh compiler yields
`str0` both times and a single pool entry. -/
theorem stringInterningWitness :
    (StringM NewCompiler [104, 105]).2 = "str0" ∧
    ((StringM NewCompiler [104, 105]).1.strs.filter (fun t => t = [104, 105])).length = 1 := by
  have h := stringInterning NewCompiler [104, 105]
    (by intro s i; simp [NewCompiler, lookupA])
  refine ⟨?_, h.2.2.2.2⟩
  have h1 := (h.1 (by simp [NewCompiler])).1
  rw [h1]
  decide

/-- The composite pool ordered strictly by layout identifier. -/
abbrev layoutSorted (l : List (List CompositeEntry)) : Prop :=
  List.Pairwise (fun a b => layoutIdent a < layoutIdent b) l

/-- `goCompare` answers `eq` exactly on equal strings. -/
theorem goCompare_eq {a b : String} : goCompare a b = .eq ↔ a = b := by
  unfold goCompare
  split_ifs with h1 h2 <;> simp [h1]

/-- `goCompare` answers `gt` exactly when the right string is
smaller. -/
theorem goCompare_gt {a b : String} : goCompare a b = .gt ↔ b < a := by
  unfold goCompare
  split_ifs with h1 h2
  · subst h1; simp [lt_irrefl]
  · simp only [reduceCtorEq, false_iff]
    exact fun hba => absurd h2 (lt_asymm hba)
  · simp only [true_iff]
    exact lt_of_le_of_ne (le_of_not_lt h2) fun hba => h1 hba.symm

/-- `goCompare` answers `lt` exactly when the left string is
smaller. -/
theorem goCompare_lt {a b : String} : goCompare a b = .lt ↔ a < b := by
  unfold goCompare
  split_ifs with h1 h2
  · subst h1; simp [lt_irrefl]
  · simp [h2]
  · simp [h2]

/-- Every member of the pool after insertion is the inserted layout or
an old member. -/
theorem mem_insertLayout {x lay : List CompositeEntry} {k : String} :
    ∀ {l : List (List CompositeEntry)}, x ∈ insertLayout k lay l → x = lay ∨ x ∈ l := by
  intro l
  induction l with
  | nil => intro h; simpa [insertLayout] using h
  | cons a t ih =>
      intro h
      cases hgc : goCompare (layoutIdent a) k with
      | eq =>
          simp only [insertLayout, hgc] at h
          exact Or.inr h
      | gt =>
          simp only [insertLayout, hgc, List.mem_cons] at h
          rcases h with rfl | h
          · exact Or.inl rfl
          · exact Or.inr (by simpa using h)
      | lt =>
          simp only [insertLayout, hgc, List.mem_cons] at h
          rcases h with rfl | h
          · exact Or.inr (List.mem_cons_self _ _)
          · rcases ih h with rfl | hh
            · exact Or.inl rfl
            · exact Or.inr (List.mem_cons_of_mem _ hh)

/-- The inserted identifier is present after insertion. -/
theorem ident_mem_insertLayout {lay : List CompositeEntry} {k : String}
    (hk : layoutIdent lay = k) :
    ∀ l : List (List CompositeEntry), k ∈ (insertLayout k lay l).map layoutIdent := by
  intro l
  induction l with
  | nil => simp [insertLayout, hk]
  | cons a t ih =>
      cases hgc : goCompare (layoutIdent a) k with
      | eq =>
          have h1 := goCompare_eq.mp hgc
          simp only [insertLayout, hgc]
          simp [h1]
      | gt =>
          simp only [insertLayout, hgc]
          simp [hk]
      | lt =>
          simp only [insertLayout, hgc, List.map_cons, List.mem_cons]
          exact Or.inr ih

/-- Inserting an identifier already present in a sorted pool keeps the
pool unchanged. -/
theorem insertLayout_of_mem {lay : List CompositeEntry} {k : String} :
    ∀ {l : List (List CompositeEntry)}, layoutSorted l →
      k ∈ l.map layoutIdent → insertLayout k lay l = l := by
  intro l
  induction l with
  | nil => intro _ hm; simp at hm
  | cons a t ih =>
      intro hs hm
      replace hs := List.pairwise_cons.mp hs
      cases hgc : goCompare (layoutIdent a) k with
      | eq => simp [insertLayout, hgc]
      | gt =>
          exfalso
          have hka : k < layoutIdent a := goCompare_gt.mp hgc
          simp only [List.map_cons, List.mem_cons] at hm
          rcases hm with rfl | hm
          · exact lt_irrefl _ hka
          · obtain ⟨b, hb, rfl⟩ := List.mem_map.mp hm
            exact lt_asymm hka (hs.1 b hb)
      | lt =>
          have hak : layoutIdent a < k := goCompare_lt.mp hgc
          simp only [List.map_cons, List.mem_cons] at hm
          rcases hm with rfl | hm
          · exact absurd hak (lt_irrefl _)
          · simp [insertLayout, hgc, ih hs.2 hm]

/-- Insertion preserves strict sortedness by identifier. -/
theorem insertLayout_sorted {lay : List CompositeEntry} {k : String}
    (hk : layoutIdent lay = k) :
    ∀ {l : List (List CompositeEntry)}, layoutSorted l →
      layoutSorted (insertLayout k lay l) := by
  intro l
  induction l with
  | nil => intro _; simp [insertLayout, layoutSorted]
  | cons a t ih =>
      intro hs
      replace hs := List.pairwise_cons.mp hs
      cases hgc : goCompare (layoutIdent a) k with
      | eq =>
          simp only [insertLayout, hgc]
          exact List.pairwise_cons.mpr hs
      | gt =>
          have hka : k < layoutIdent a := goCompare_gt.mp hgc
          simp only [insertLayout, hgc]
          refine List.pairwise_cons.mpr ⟨?_, List.pairwise_cons.mpr hs⟩
          intro b hb
          rcases List.mem_cons.mp hb with rfl | hbt
          · simpa [hk] using hka
          · exact lt_trans (by simpa [hk] using hka) (hs.1 b hbt)
      | lt =>
          have hak : layoutIdent a < k := goCompare_lt.mp hgc
          simp only [insertLayout, hgc]
          refine List.pairwise_cons.mpr ⟨?_, ih hs.2⟩
          intro b hb
          rcases mem_insertLayout hb with rfl | hbt
          · simpa [hk] using hak
          · exact hs.1 b hbt

/-- Inserting a fresh identifier permutes the pool with the layout
consed on. -/
theorem insertLayout_perm {lay : List CompositeEntry} {k : String} :
    ∀ {l : List (List CompositeEntry)}, k ∉ l.map layoutIdent →
      (insertLayout k lay l).Perm (lay :: l) := by
  intro l
  induction l with
  | nil => intro _; simp [insertLayout]
  | cons a t ih =>
      intro hm
      simp only [List.map_cons, List.mem_cons, not_or] at hm
      cases hgc : goCompare (layoutIdent a) k with
      | eq => exact absurd (goCompare_eq.mp hgc).symm hm.1
      | gt => simp [insertLayout, hgc]
      | lt =>
          simp only [insertLayout, hgc]
          exact List.Perm.trans (List.Perm.cons a (ih (by simpa using hm.2)))
            (List.Perm.swap lay a t)

/-- C5: `CompositeType` returns the layout's identifier; on a sorted
pool it keeps sortedness, never duplicates an identifier, leaves the
pool unchanged when the identifier is already pooled, and otherwise
inserts the layout (a permutation of consing it) at its sorted
position. -/
theorem compositePoolSorted (c : Compiler) (layout : List CompositeEntry)
    (hs : layoutSorted c.comp) :
    (CompositeTypeM c layout).2 = layoutIdent layout ∧
    layoutSorted (CompositeTypeM c layout).1.comp ∧
    ((CompositeTypeM c layout).1.comp.map layoutIdent).Nodup ∧
    layoutIdent layout ∈ (CompositeTypeM c layout).1.comp.map layoutIdent ∧
    (layoutIdent layout ∈ c.comp.map layoutIdent → (CompositeTypeM c layout).1 = c) ∧
    (layoutIdent layout ∉ c.comp.map layoutIdent →
      (CompositeTypeM c layout).1.comp.Perm (layout :: c.comp)) := by
  have hsorted : layoutSorted (insertLayout (layoutIdent layout) layout c.comp) :=
    insertLayout_sorted rfl hs
  refine ⟨rfl, hsorted, ?_, ?_, ?_, ?_⟩
  · rw [List.Nodup, List.pairwise_map]
    exact hsorted.imp fun hlt => ne_of_lt hlt
  · exact ident_mem_insertLayout rfl c.comp
  · intro hm
    simp [CompositeTypeM, insertLayout_of_mem hs hm]
  · intro hm
    exact insertLayout_perm hm

/-- Witness for C5 at a fresh compiler and the layout `\x7b w 2 \x7d`. -/
theorem compositePoolSortedWitness :
    (CompositeTypeM NewCompiler [("w", 2)]).2 = ":w2" ∧
    (CompositeTypeM NewCompiler [("w", 2)]).1.comp = [[("w", 2)]] := by
  have h := compositePoolSorted NewCompiler [("w", 2)] (List.Pairwise.nil)
  refine ⟨h.1.trans (by decide), ?_⟩
  decide

/-- C7: `Variable` resolves a name through the local table first, then
the innermost namespace, then the root namespace, returning the first
binding found (the local variable, or the prefix-qualified global
operand), and fails with the `Undefined variable` message when no table
holds the name. -/
theorem variableLookupOrder (c : Compiler) (name : String) :
    (∀ v, lookupA c.vars name = Option.some v → VariableM c name = .ok v) ∧
    (lookupA c.vars name = Option.none →
      ∀ b, lookupA c.NS.Vars name = Option.some b →
        VariableM c name = .ok ⟨Op.glob (c.NS.Name ++ name), b⟩) ∧
    (lookupA c.vars name = Option.none → lookupA c.NS.Vars name = Option.none →
      ∀ b, lookupA c.nsRoot.Vars name = Option.some b →
        VariableM c name = .ok ⟨Op.glob (c.nsRoot.Name ++ name), b⟩) ∧
    (lookupA c.vars name = Option.none → lookupA c.NS.Vars name = Option.none →
      lookupA c.nsRoot.Vars name = Option.none →
        VariableM c name = .error ("Undefined variable: " ++ name)) := by
  refine ⟨?_, ?_, ?_, ?_⟩
  · intro v hv
    simp [VariableM, hv]
  · intro h1 b hb
    simp [VariableM, h1, nsVarM, hb]
  · intro h1 h2 b hb
    simp [VariableM, h1, h2, nsVarM, hb]
  · intro h1 h2 h3
    simp [VariableM, h1, h2, h3, nsVarM]

/-- Witness for C7: a local hit and an undefined name on concrete
compilers. -/
theorem variableLookupOrderWitness :
    VariableM { NewCompiler with
        vars := [("x", ⟨Op.temp 3, VarBind.t (Ty.c CTy.i32)⟩)] } ("x") =
      .ok ⟨Op.temp 3, VarBind.t (Ty.c CTy.i32)⟩ ∧
    VariableM NewCompiler ("zzz") = .error ("Undefined variable: zzz") := by
  constructor
  · exact (variableLookupOrder { NewCompiler with
      vars := [("x", ⟨Op.temp 3, VarBind.t (Ty.c CTy.i32)⟩)] } ("x")).1 _ rfl
  · exact (variableLookupOrder NewCompiler ("zzz")).2.2.2 rfl rfl rfl

/-- C8 counterexample: two compatible pointer-to-I32 operands are
rejected by `BinaryExpr.TypeOf` as non-numeric, so compatibility alone
does not make it yield the concrete side's type. -/
theorem binaryTypeOfCounterexample :
    TyCompatible (Ty.c (.ptr (CTyOpt.some .i32))) (Ty.c (.ptr (CTyOpt.some .i32))) = true ∧
    BinaryExprTypeOf (Ty.c (.ptr (CTyOpt.some .i32))) (Ty.c (.ptr (CTyOpt.some .i32))) =
      .error ("Operand of binary expression is of non-numeric type") := by
  exact ⟨by decide, rfl⟩

/-- On compatible operands, `BinaryExpr.TypeOf` reduces to the numeric
test on the concrete side's type. -/
theorem binaryTypeOf_compat_eq (l r : Ty) (hc : TyCompatible l r = true) :
    BinaryExprTypeOf l r =
      (if isNumeric (concreteSide l r) then Except.ok (Ty.c (concreteSide l r))
       else Except.error ("Operand of binary expression is of non-numeric type")) := by
  have hside : (if !l.IsConcrete && r.IsConcrete then r.Concrete else l.Concrete)
      = concreteSide l r := by
    cases l <;> cases r <;> rfl
  unfold BinaryExprTypeOf
  rw [hc]
  simp only [Bool.not_true, Bool.false_eq_true, if_false, hside]

/-- C8 (amended): `BinaryExpr.TypeOf` fails on incompatible operand
types; on compatible operands it yields the concrete side's type when
that type is numeric and fails with the non-numeric message
otherwise. -/
theorem binaryTypeOf (l r : Ty) :
    (TyCompatible l r = false →
      BinaryExprTypeOf l r = .error ("Operands of binary expression are incompatible")) ∧
    (TyCompatible l r = true → isNumeric (concreteSide l r) = true →
      BinaryExprTypeOf l r = .ok (Ty.c (concreteSide l r))) ∧
    (TyCompatible l r = true → isNumeric (concreteSide l r) = false →
      BinaryExprTypeOf l r = .error ("Operand of binary expression is of non-numeric type")) := by
  refine ⟨?_, ?_, ?_⟩
  · intro h
    simp [BinaryExprTypeOf, h]
  · intro hc hn
    rw [binaryTypeOf_compat_eq l r hc, if_pos hn]
  · intro hc hn
    rw [binaryTypeOf_compat_eq l r hc, if_neg]
    simp [hn]

/-- Witness for C8: an integer literal against a concrete I32 yields
I32. -/
theorem binaryTypeOfWitness :
    BinaryExprTypeOf Ty.intLit (Ty.c CTy.i32) = .ok (Ty.c CTy.i32) := by
  have h := (binaryTypeOf Ty.intLit (Ty.c CTy.i32)).2.1
    (by simp [TyCompatible, isNumeric]) (by simp [concreteSide, isNumeric])
  simpa [concreteSide] using h

/-- C9: `Compile` converts a panic into its returned error exactly when
the panic value is a string, re-raising any other value; typing a call
whose callee is a pointer to a non-function type panics with the
non-string assertion error, which therefore escapes `Compile`. -/
theorem compilePanicConversion :
    (∀ (c : Compiler) (body : Compiler → StepResult) (c' : Compiler) (s : String),
        body c = .panicked c' (.str s) → (Compile c body).2 = .ok (Sum.inr s)) ∧
    (∀ (c : Compiler) (body : Compiler → StepResult) (c' : Compiler),
        body c = .panicked c' .assertionError →
          (Compile c body).2 = .error .assertionError) ∧
    (∀ t : CTy, isFunc t = false →
        CallExprTypeOf (Ty.c (.ptr (CTyOpt.some t))) = .panics .assertionError) ∧
    CallExprTypeOf (Ty.c (.ptr CTyOpt.none)) = .panics .assertionError ∧
    (∀ s, PanicVal.assertionError ≠ PanicVal.str s) := by
  refine ⟨?_, ?_, ?_, ?_, ?_⟩
  · intro c body c' s h
    simp [Compile, h]
  · intro c body c' h
    simp [Compile, h]
  · intro t ht
    cases t <;> simp_all [CallExprTypeOf, isFunc]
  · rfl
  · intro s h
    exact PanicVal.noConfusion h

/-- Witness for C9: a string panic becomes the error, the assertion
error escapes. -/
theorem compilePanicConversionWitness :
    (Compile NewCompiler (fun c => .panicked c (.str ("boom")))).2 = .ok (Sum.inr ("boom")) ∧
    (Compile NewCompiler (fun c => .panicked c .assertionError)).2 =
      .error .assertionError ∧
    CallExprTypeOf (Ty.c (.ptr (CTyOpt.some .i32))) = .panics .assertionError := by
  refine ⟨?_, ?_, ?_⟩
  · exact compilePanicConversion.1 NewCompiler _ NewCompiler ("boom") rfl
  · exact compilePanicConversion.2.1 NewCompiler _ NewCompiler rfl
  · exact compilePanicConversion.2.2.1 CTy.i32 rfl

/-- Appending a namespace leaves it as the current namespace. -/
theorem getLastD_concat (l : List Namespace) (x d : Namespace) :
    (l ++ [x]).getLastD d = x := by
  rw [List.getLastD_eq_getLast?, List.getLast?_concat]
  rfl

/-- C10: `DeclareGlobal` fails on a duplicate name; otherwise it
records the binding in the current namespace for extern and non-extern
globals alike, and queues a pending data entry (hence a `Finish`-time
`data` line) exactly when the global is not extern. -/
theorem declareGlobalData (c : Compiler) (externFlag : Bool) (name : String) (ty : CTy) :
    ((lookupA c.NS.Vars name).isSome = true →
      DeclareGlobal c externFlag name ty = .error ("Variable already exists")) ∧
    (lookupA c.NS.Vars name = Option.none →
      ∃ c', DeclareGlobal c externFlag name ty = .ok c' ∧
        lookupA c'.NS.Vars name = Option.some (VarBind.t (Ty.c ty)) ∧
        c'.data = (if externFlag then c.data else c.data ++ [(c.NS.Name ++ name, ty)]) ∧
        c'.data.map dataLine = c.data.map dataLine
          ++ (if externFlag then [] else [dataLine (c.NS.Name ++ name, ty)]) ∧
        (Finish c').codeW = c'.codeW
          ++ String.join (c'.strs.enum.map fun (p : Nat × GoStr) => strDataLine p.1 p.2)
          ++ String.join (c'.data.map dataLine)) := by
  constructor
  · intro h
    simp [DeclareGlobal, h]
  · intro h
    cases externFlag with
    | true =>
        refine ⟨{ c with ns := c.ns.dropLast
            ++ [⟨c.NS.Name, (name, VarBind.t (Ty.c ty)) :: c.NS.Vars, c.NS.Typs⟩] },
          by simp [DeclareGlobal, h], ?_, by simp, by simp, ?_⟩
        · simp only [Compiler.NS, getLastD_concat]
          simp [lookupA]
        · simp [Finish, String.append_assoc]
    | false =>
        refine ⟨{ c with
            ns := c.ns.dropLast
              ++ [⟨c.NS.Name, (name, VarBind.t (Ty.c ty)) :: c.NS.Vars, c.NS.Typs⟩],
            data := c.data ++ [(c.NS.Name ++ name, ty)] },
          by simp [DeclareGlobal, h], ?_, by simp, by simp, ?_⟩
        · simp only [Compiler.NS, getLastD_concat]
          simp [lookupA]
        · simp [Finish, String.append_assoc]

/-- Witness for C10: declaring the non-extern global `bar : I32` on a
fresh compiler queues exactly the `data $bar` entry of the reference
tests, and an extern global queues nothing. -/
theorem declareGlobalDataWitness :
    (∃ c', DeclareGlobal NewCompiler false ("bar") CTy.i32 = .ok c' ∧
      c'.data.map dataLine = ["data $bar = align 4 \x7b z 4 \x7d\n"]) ∧
    (∃ c', DeclareGlobal NewCompiler true ("foo") CTy.i32 = .ok c' ∧
      c'.data = []) := by
  constructor
  · obtain ⟨c', h1, _, _, h4, _⟩ :=
      (declareGlobalData NewCompiler false ("bar") CTy.i32).2 rfl
    refine ⟨c', h1, ?_⟩
    rw [h4]
    decide
  · obtain ⟨c', h1, _, h3, _, _⟩ :=
      (declareGlobalData NewCompiler true ("foo") CTy.i32).2 rfl
    refine ⟨c', h1, ?_⟩
    simpa [NewCompiler] using h3

/-- C1 counterexample: a lowering failure is returned as a single
error, but the partially written code buffer, the advanced temporary
counter and the rest of the per-translation state survive on the
instance, and the next `Compile` hands the stale buffer out. -/
theorem compileFailureCounterexample :
    (Compile NewCompiler failingBody).2 = .ok (Sum.inr ("Undefined variable: y")) ∧
    (Compile NewCompiler failingBody).1.codeW ≠ "" ∧
    (Compile NewCompiler failingBody).1.temp ≠ 0 ∧
    (Compile (Compile NewCompiler failingBody).1 (fun c => StepResult.ok c)).2 =
      .ok (Sum.inl ("", "function $f(w %t1) \x7b\n@start\n")) := by
  refine ⟨rfl, by decide, by decide, rfl⟩

/-- C1 (amended): a string panic is returned as a single error, but
`Compile` leaves the compiler exactly as the failed translation left
it: nothing is discarded or reset; only a successful translation hands
the buffers out and installs fresh empty ones. -/
theorem compileFailureState :
    (∀ (c : Compiler) (body : Compiler → StepResult) (c' : Compiler) (s : String),
        body c = .panicked c' (.str s) → Compile c body = (c', .ok (Sum.inr s))) ∧
    (∀ (c : Compiler) (body : Compiler → StepResult) (c' : Compiler),
        body c = .ok c' →
          Compile c body =
            ({ c' with typeW := "", codeW := "" }, .ok (Sum.inl (c'.typeW, c'.codeW)))) := by
  constructor
  · intro c body c' s h
    simp [Compile, h]
  · intro c body c' h
    simp [Compile, h]

/-- Witness for C1: a concrete string panic returns the message and the
panic-time state unchanged. -/
theorem compileFailureStateWitness :
    Compile NewCompiler (fun c => .panicked { c with temp := 7 } (.str ("oops"))) =
      ({ NewCompiler with temp := 7 }, .ok (Sum.inr ("oops"))) :=
  compileFailureState.1 NewCompiler _ { NewCompiler with temp := 7 } ("oops") rfl

end C4
